import Mathlib

/-!
# Result reference counting in `lib/QIR/delegated.cpp`

A shallow embedding of `__quantum__rt__result_update_reference_count` and of the
process-wide map behind `AllocatedResults()`, and of the functions that delegate to the
driver (`__quantum__rt__qubit_allocate`, `_release`, `_borrow`, `_return`,
`__quantum__rt__result_equal`, `__quantum__rt__result_to_string`), followed by the
properties of the reference-count tracker and of these functions.

* A `RESULT*` is represented by its address, a natural number; the tracker only
  ever compares handles and uses them as map keys.
* `std::unordered_map<RESULT*, int>` is a `Finmap`: a finite map with unique keys and
  no order, with `find`, `operator[]`/assignment and `erase` as `lookup`, `insert`
  and `erase`.
* `int` and `int32_t` are 32-bit two's-complement integers, carried as mathematical
  integers inside the range `[INT_MIN, INT_MAX]`; every `int` addition of the source is
  reduced back into that range by `wrapInt`. The properties that hold only while no
  count overflows say so in their hypotheses and do not rely on the wrapped value.
* The driver reached through `GlobalContext()->GetDriver()` is represented by the log of
  the calls made on it; where a function uses the answer of the driver, the driver is a
  parameter that gives its answers as a function of the calls received before.
* `assert` is taken as enabled: a failed assertion stops the process, and the outcome
  keeps the state the process was in when it stopped.
-/

namespace QirRuntime

/-! ## Data model -/

/-- Address held by a `RESULT*` handle. -/
abbrev RESULT := Nat

/-- Smallest value of a 32-bit `int`. -/
def INT_MIN : Int := -2147483648

/-- Largest value of a 32-bit `int`. -/
def INT_MAX : Int := 2147483647

/-- Values of the C++ types `int` and `int32_t`. -/
abbrev CInt := {x : Int // INT_MIN ≤ x ∧ x ≤ INT_MAX}

/-- Result of an `int` addition whose mathematical value is `x`: the representative of
`x` modulo `2^32` in `[INT_MIN, INT_MAX]`. Inside the range it is `x` itself; outside,
the source has a signed overflow, which C++ leaves undefined, and the two's-complement
result that the addition gives on 32-bit `int` hardware is taken. -/
def wrapInt (x : Int) : CInt :=
  ⟨(x + 2147483648) % 4294967296 - 2147483648, by unfold INT_MIN INT_MAX; omega⟩

/-- The map type `std::unordered_map<RESULT*, int>`. -/
abbrev ResultMap := Finmap (fun _ : RESULT => CInt)

/-- Value of a `QubitIdType`, and of the `QUBIT*` that `reinterpret_cast` makes of it and
back: the cast keeps the bit pattern, which is what is recorded. -/
abbrev QUBIT := Nat

/-- Modelled from the spec: the enumeration `ResultValue` is declared outside this file;
an outcome is zero, one, or still pending. -/
inductive ResultValue where
  | Result_Zero
  | Result_One
  | Result_Pending
  deriving DecidableEq

/-- Modelled from the spec: the string object `QirString` and its constructor are outside
this file; of the object only the text it was created from is kept. -/
structure QirString where
  text : String
  deriving DecidableEq

/-- Calls made on the driver `GlobalContext()->GetDriver()`. -/
inductive DriverCall where
  | ReleaseResult (r : RESULT)
  | AllocateQubit
  | ReleaseQubit (qubit : QUBIT)
  | AreEqualResults (r1 r2 : RESULT)
  | GetResultValue (result : RESULT)
  deriving DecidableEq

/-- The driver interface as far as this file uses its answers. The driver is an object
outside this file; what it answers to a call is a function of the calls it has received
before, which is how its state is represented here. -/
structure IRuntimeDriver where
  AllocateQubit : List DriverCall → QUBIT
  AreEqualResults : List DriverCall → RESULT → RESULT → Bool
  GetResultValue : List DriverCall → RESULT → ResultValue

/-- Process state seen by the functions of `delegated.cpp`: the static map returned by
`AllocatedResults()` and the calls made on the driver so far, oldest first. -/
structure Runtime where
  allocatedResults : ResultMap
  driverCalls : List DriverCall
  deriving DecidableEq

/-- State at process start: nothing tracked, no driver call made. -/
def Runtime.initial : Runtime := ⟨∅, []⟩

/-- State with the single table entry `r ↦ count` and no driver call made. -/
def Runtime.single (r : RESULT) (count : CInt) : Runtime := ⟨Finmap.singleton r count, []⟩

/-- How a call ends: it returns, or an `assert` fails and the process stops. Either way
the state reached is recorded. -/
inductive Outcome where
  | returned (s : Runtime)
  | assertFailed (s : Runtime)
  deriving DecidableEq

/-- State in which the call ended. -/
def Outcome.state : Outcome → Runtime
  | .returned s => s
  | .assertFailed s => s

/-- True when the call returned, false when an assertion failed. -/
def Outcome.isReturned : Outcome → Bool
  | .returned _ => true
  | .assertFailed _ => false

/-! ## Operations -/

/-- The driver call `GlobalContext()->GetDriver()->ReleaseResult(r)`. -/
def ReleaseResult (r : RESULT) (s : Runtime) : Runtime :=
  { s with driverCalls := s.driverCalls ++ [DriverCall.ReleaseResult r] }

/-- The function `void __quantum__rt__result_update_reference_count(RESULT* r, int32_t increment)`. -/
def __quantum__rt__result_update_reference_count (r : RESULT) (increment : CInt)
    (s : Runtime) : Outcome :=
  if increment.val = 0 then
    .returned s
  else if increment.val > 0 then
    match s.allocatedResults.lookup r with
    | none =>
      .returned { s with allocatedResults :=
        s.allocatedResults.insert r (wrapInt (1 + increment.val)) }
    | some second =>
      .returned { s with allocatedResults :=
        s.allocatedResults.insert r (wrapInt (second.val + increment.val)) }
  else
    match s.allocatedResults.lookup r with
    | none =>
      if increment.val = -1 then
        .returned (ReleaseResult r s)
      else
        .assertFailed s
    | some second =>
      let newRefcount := wrapInt (second.val + increment.val)
      if newRefcount.val ≥ 0 then
        if newRefcount.val = 0 then
          .returned (ReleaseResult r { s with allocatedResults := s.allocatedResults.erase r })
        else
          .returned { s with allocatedResults := s.allocatedResults.insert r newRefcount }
      else
        .assertFailed s

/-- How a call that yields a value ends: it returns the value, or an `assert` fails and
the process stops with nothing returned. Either way the state reached is recorded. -/
inductive ValueOutcome (α : Type) where
  | returned (value : α) (s : Runtime)
  | assertFailed (s : Runtime)

/-- Modelled from the spec: `__quantum__rt__string_create` is defined outside this file;
it makes the string object for the given text. -/
def __quantum__rt__string_create (text : String) : QirString := ⟨text⟩

/-- The function `QUBIT* __quantum__rt__qubit_allocate()`. -/
def __quantum__rt__qubit_allocate (driver : IRuntimeDriver) (s : Runtime) : QUBIT × Runtime :=
  (driver.AllocateQubit s.driverCalls,
    { s with driverCalls := s.driverCalls ++ [DriverCall.AllocateQubit] })

/-- The function `void __quantum__rt__qubit_release(QUBIT* qubit)`. -/
def __quantum__rt__qubit_release (qubit : QUBIT) (s : Runtime) : Runtime :=
  { s with driverCalls := s.driverCalls ++ [DriverCall.ReleaseQubit qubit] }

/-- The function `QUBIT* __quantum__rt__qubit_borrow()`. -/
def __quantum__rt__qubit_borrow (driver : IRuntimeDriver) (s : Runtime) : QUBIT × Runtime :=
  __quantum__rt__qubit_allocate driver s

/-- The function `void __quantum__rt__qubit_return(QUBIT* qubit)`. -/
def __quantum__rt__qubit_return (qubit : QUBIT) (s : Runtime) : Runtime :=
  __quantum__rt__qubit_release qubit s

/-- The function `bool __quantum__rt__result_equal(RESULT* r1, RESULT* r2)`. -/
def __quantum__rt__result_equal (driver : IRuntimeDriver) (r1 r2 : RESULT) (s : Runtime) :
    Bool × Runtime :=
  if r1 = r2 then
    (true, s)
  else
    (driver.AreEqualResults s.driverCalls r1 r2,
      { s with driverCalls := s.driverCalls ++ [DriverCall.AreEqualResults r1 r2] })

/-- The function `QirString* __quantum__rt__result_to_string(RESULT* result)`. -/
def __quantum__rt__result_to_string (driver : IRuntimeDriver) (result : RESULT) (s : Runtime) :
    ValueOutcome QirString :=
  let rv := driver.GetResultValue s.driverCalls result
  let s1 : Runtime := { s with driverCalls := s.driverCalls ++ [DriverCall.GetResultValue result] }
  if rv ≠ ResultValue.Result_Pending then
    .returned
      (if rv = ResultValue.Result_Zero then __quantum__rt__string_create "Zero"
       else __quantum__rt__string_create "One") s1
  else
    .assertFailed s1

/-- One call `__quantum__rt__result_update_reference_count(r, increment)`, as the pair of
its arguments. -/
abbrev Call := RESULT × CInt

/-- A sequence of calls of `__quantum__rt__result_update_reference_count`, made one after
the other. A failed assertion stops the process: the calls after it are not made. -/
def runCalls : List Call → Runtime → Outcome
  | [], s => .returned s
  | c :: cs, s =>
    match __quantum__rt__result_update_reference_count c.1 c.2 s with
    | .returned s' => runCalls cs s'
    | .assertFailed s' => .assertFailed s'

/-! ## Vocabulary of the properties -/

/-- Number of `ReleaseResult(h)` calls the driver has received. -/
def releaseCount (h : RESULT) (s : Runtime) : Nat :=
  s.driverCalls.count (DriverCall.ReleaseResult h)

/-- Sum of the increments that the calls of a sequence apply to handle `h`. -/
def appliedSum (h : RESULT) (calls : List Call) : Int :=
  ((calls.filter (fun c => c.1 = h)).map (fun c => c.2.val)).sum

/-- Logical reference count of `h` after a sequence of calls made from process start: the
implicit 1 of a fresh result plus every increment applied to `h`. -/
def logicalCount (h : RESULT) (calls : List Call) : Int :=
  1 + appliedSum h calls

/-- Table invariant: every tracked result has a count of at least 1. -/
def countsPositive (t : ResultMap) : Prop :=
  ∀ r c, t.lookup r = some c → 1 ≤ c.val

/-- The count produced by sharing `r` with a positive `increment` is representable as an
`int`: `1 + increment` for an untracked result, `count + increment` for a tracked one.
Calls with `increment ≤ 0` always qualify. -/
def incrementFits (r : RESULT) (increment : CInt) (s : Runtime) : Prop :=
  0 < increment.val →
    match s.allocatedResults.lookup r with
    | none => 1 + increment.val ≤ INT_MAX
    | some second => second.val + increment.val ≤ INT_MAX

/-- States reached from process start by calls of the update function none of which
overflows an `int` count. -/
inductive ReachableWithoutOverflow : Runtime → Prop where
  | start : ReachableWithoutOverflow Runtime.initial
  | call (s : Runtime) (r : RESULT) (increment : CInt) :
      ReachableWithoutOverflow s → incrementFits r increment s →
      ReachableWithoutOverflow (__quantum__rt__result_update_reference_count r increment s).state

/-- The table entry of `h` agrees with the logical count `L`: an untracked result stands
for the implicit count 1, a tracked one stores `L ≥ 1`. -/
def Tracks (h : RESULT) (L : Int) (s : Runtime) : Prop :=
  match s.allocatedResults.lookup h with
  | none => L = 1
  | some second => second.val = L ∧ 1 ≤ L

/-- Entry of `r` in table `t` when an entry of 1 for the handle `h` is read as no entry. -/
def entryModuloImplicit (h : RESULT) (t : ResultMap) (r : RESULT) : Option CInt :=
  match t.lookup r with
  | none => none
  | some second => if r = h ∧ second.val = 1 then none else some second

/-- Two tables are equal up to treating an entry of 1 for `h` as absent. -/
def equalModuloImplicit (h : RESULT) (t1 t2 : ResultMap) : Prop :=
  ∀ r, entryModuloImplicit h t1 r = entryModuloImplicit h t2 r

/-! ## Example sequences -/

/-- A driver that numbers its qubits by the calls received so far, holds two results equal
when their addresses agree modulo 2, and has result 0 at zero, result 1 at one and every
other result pending. -/
def exampleDriver : IRuntimeDriver where
  AllocateQubit := fun received => received.length
  AreEqualResults := fun _ r1 r2 => decide (r1 % 2 = r2 % 2)
  GetResultValue := fun _ result =>
    if result = 0 then ResultValue.Result_Zero
    else if result = 1 then ResultValue.Result_One
    else ResultValue.Result_Pending


/-- Result 7 is shared once and released twice, with one release of the unshared
result 8 in between. -/
def shareThenRelease : List Call :=
  [(7, ⟨1, by decide⟩), (8, ⟨-1, by decide⟩), (7, ⟨-1, by decide⟩), (7, ⟨-1, by decide⟩)]

/-- An over-release of the untracked result 8, then the single release of result 7. -/
def otherHandleOverReleased : List Call :=
  [(8, ⟨-2, by decide⟩), (7, ⟨-1, by decide⟩)]

/-- Result 7 is shared with increment `INT_MAX`, shared once more, unshared once, and then
brought to the logical count 0 with increment `INT_MIN`. -/
def sharedPastIntMax : List Call :=
  [(7, ⟨2147483647, by decide⟩), (7, ⟨1, by decide⟩), (7, ⟨-1, by decide⟩),
   (7, ⟨-2147483648, by decide⟩)]

/-- The unshared result 7 is released, and released again. -/
def releasedTwice : List Call :=
  [(7, ⟨-1, by decide⟩), (7, ⟨-1, by decide⟩)]

/-- Result 7 is shared until its logical count is `2^32 + 1`, then unshared once. -/
def sharedPastWordSize : List Call :=
  [(7, ⟨2147483647, by decide⟩), (7, ⟨2147483647, by decide⟩), (7, ⟨2, by decide⟩),
   (7, ⟨-1, by decide⟩)]

/-- Result 7 is shared until its logical count is `2^32 + 1`, then unshared twice. -/
def releasedPastWordSize : List Call :=
  [(7, ⟨2147483647, by decide⟩), (7, ⟨2147483647, by decide⟩), (7, ⟨2, by decide⟩),
   (7, ⟨-1, by decide⟩), (7, ⟨-1, by decide⟩)]

/-! ## Arithmetic of `int` -/

theorem wrapInt_val (x : Int) (hlo : INT_MIN ≤ x) (hhi : x ≤ INT_MAX) : (wrapInt x).val = x := by
  unfold INT_MIN at hlo
  unfold INT_MAX at hhi
  show (x + 2147483648) % 4294967296 - 2147483648 = x
  omega

theorem CInt.lower (c : CInt) : -2147483648 ≤ c.val := c.property.1

theorem CInt.upper (c : CInt) : c.val ≤ 2147483647 := c.property.2

/-! ## The branches of the update function -/

theorem update_zero (r : RESULT) (increment : CInt) (s : Runtime) (h0 : increment.val = 0) :
    __quantum__rt__result_update_reference_count r increment s = .returned s := by
  simp [__quantum__rt__result_update_reference_count, h0]

theorem update_share_untracked (r : RESULT) (increment : CInt) (s : Runtime)
    (hpos : 0 < increment.val) (hr : s.allocatedResults.lookup r = none) :
    __quantum__rt__result_update_reference_count r increment s
      = .returned ⟨s.allocatedResults.insert r (wrapInt (1 + increment.val)), s.driverCalls⟩ := by
  have h0 : ¬ increment.val = 0 := by omega
  simp [__quantum__rt__result_update_reference_count, h0, hpos, hr]

theorem update_share_tracked (r : RESULT) (increment second : CInt) (s : Runtime)
    (hpos : 0 < increment.val) (hr : s.allocatedResults.lookup r = some second) :
    __quantum__rt__result_update_reference_count r increment s
      = .returned ⟨s.allocatedResults.insert r (wrapInt (second.val + increment.val)),
          s.driverCalls⟩ := by
  have h0 : ¬ increment.val = 0 := by omega
  simp [__quantum__rt__result_update_reference_count, h0, hpos, hr]

theorem update_release_untracked (r : RESULT) (increment : CInt) (s : Runtime)
    (hneg : increment.val < 0) (hr : s.allocatedResults.lookup r = none) :
    __quantum__rt__result_update_reference_count r increment s
      = if increment.val = -1 then
          .returned ⟨s.allocatedResults, s.driverCalls ++ [DriverCall.ReleaseResult r]⟩
        else .assertFailed s := by
  have h0 : ¬ increment.val = 0 := by omega
  have h1 : ¬ 0 < increment.val := by omega
  simp [__quantum__rt__result_update_reference_count, h0, h1, hr, ReleaseResult]

theorem update_release_tracked (r : RESULT) (increment second : CInt) (s : Runtime)
    (hneg : increment.val < 0) (hr : s.allocatedResults.lookup r = some second) :
    __quantum__rt__result_update_reference_count r increment s
      = if 0 ≤ (wrapInt (second.val + increment.val)).val then
          if (wrapInt (second.val + increment.val)).val = 0 then
            .returned ⟨s.allocatedResults.erase r,
              s.driverCalls ++ [DriverCall.ReleaseResult r]⟩
          else
            .returned ⟨s.allocatedResults.insert r (wrapInt (second.val + increment.val)),
              s.driverCalls⟩
        else .assertFailed s := by
  have h0 : ¬ increment.val = 0 := by omega
  have h1 : ¬ 0 < increment.val := by omega
  simp [__quantum__rt__result_update_reference_count, h0, h1, hr, ReleaseResult]

/-! ## One call, seen from a handle -/

/-- A call on `h` that leaves the logical count at 1 or more, within the range of `int`,
returns, keeps the entry of `h` in step with the count and makes no driver call. -/
theorem update_tracks_alive (h : RESULT) (increment : CInt) (s : Runtime) (L : Int)
    (ht : Tracks h L s) (hlo : 1 ≤ L + increment.val) (hhi : L + increment.val ≤ INT_MAX) :
    ∃ s', __quantum__rt__result_update_reference_count h increment s = .returned s' ∧
      Tracks h (L + increment.val) s' ∧ s'.driverCalls = s.driverCalls := by
  have hb1 := increment.lower
  have hb2 := increment.upper
  unfold INT_MAX at hhi
  unfold Tracks at ht
  rcases lt_trichotomy increment.val 0 with hneg | h0 | hpos
  · cases hr : s.allocatedResults.lookup h with
    | none =>
      rw [hr] at ht
      exfalso; simp only at ht; omega
    | some second =>
      rw [hr] at ht
      have hc1 := second.lower
      have hc2 := second.upper
      obtain ⟨hcL, hL⟩ := ht
      have hw : (wrapInt (second.val + increment.val)).val = second.val + increment.val :=
        wrapInt_val _ (by unfold INT_MIN; omega) (by unfold INT_MAX; omega)
      rw [update_release_tracked h increment second s hneg hr]
      have hge : 0 ≤ (wrapInt (second.val + increment.val)).val := by omega
      have hne : ¬ (wrapInt (second.val + increment.val)).val = 0 := by omega
      rw [if_pos hge, if_neg hne]
      refine ⟨_, rfl, ?_, rfl⟩
      unfold Tracks
      simp only [Finmap.lookup_insert]
      constructor <;> omega
  · rw [update_zero h increment s h0]
    refine ⟨s, rfl, ?_, rfl⟩
    unfold Tracks
    rw [h0, add_zero]
    exact ht
  · cases hr : s.allocatedResults.lookup h with
    | none =>
      rw [hr] at ht
      simp only at ht
      rw [update_share_untracked h increment s hpos hr]
      refine ⟨_, rfl, ?_, rfl⟩
      have hw : (wrapInt (1 + increment.val)).val = 1 + increment.val :=
        wrapInt_val _ (by unfold INT_MIN; omega) (by unfold INT_MAX; omega)
      unfold Tracks
      simp only [Finmap.lookup_insert]
      constructor <;> omega
    | some second =>
      rw [hr] at ht
      have hc1 := second.lower
      obtain ⟨hcL, hL⟩ := ht
      rw [update_share_tracked h increment second s hpos hr]
      refine ⟨_, rfl, ?_, rfl⟩
      have hw : (wrapInt (second.val + increment.val)).val = second.val + increment.val :=
        wrapInt_val _ (by unfold INT_MIN; omega) (by unfold INT_MAX; omega)
      unfold Tracks
      simp only [Finmap.lookup_insert]
      constructor <;> omega

/-- A call on `h` that brings the logical count to 0 returns, leaves `h` without an entry
and makes the single driver call `ReleaseResult(h)`. -/
theorem update_tracks_last (h : RESULT) (increment : CInt) (s : Runtime) (L : Int)
    (ht : Tracks h L s) (hz : L + increment.val = 0) :
    ∃ s', __quantum__rt__result_update_reference_count h increment s = .returned s' ∧
      s'.allocatedResults.lookup h = none ∧
      s'.driverCalls = s.driverCalls ++ [DriverCall.ReleaseResult h] := by
  unfold Tracks at ht
  cases hr : s.allocatedResults.lookup h with
  | none =>
    rw [hr] at ht
    simp only at ht
    have hinc : increment.val = -1 := by omega
    rw [update_release_untracked h increment s (by omega) hr, if_pos hinc]
    exact ⟨_, rfl, hr, rfl⟩
  | some second =>
    rw [hr] at ht
    obtain ⟨hcL, hL⟩ := ht
    have hsum : second.val + increment.val = 0 := by omega
    have hw : (wrapInt (second.val + increment.val)).val = 0 := by
      rw [hsum]; rfl
    rw [update_release_tracked h increment second s (by omega) hr, if_pos (by omega), if_pos hw]
    exact ⟨_, rfl, Finmap.lookup_erase h _, rfl⟩

/-- A call on `h` that would bring the logical count below 0 fails its assertion, in the
state it was made in. -/
theorem update_tracks_over (h : RESULT) (increment : CInt) (s : Runtime) (L : Int)
    (ht : Tracks h L s) (hneg : L + increment.val < 0) :
    __quantum__rt__result_update_reference_count h increment s = .assertFailed s := by
  have hb1 := increment.lower
  unfold Tracks at ht
  cases hr : s.allocatedResults.lookup h with
  | none =>
    rw [hr] at ht
    simp only at ht
    have hinc : ¬ increment.val = -1 := by omega
    rw [update_release_untracked h increment s (by omega) hr, if_neg hinc]
  | some second =>
    rw [hr] at ht
    have hc2 := second.upper
    obtain ⟨hcL, hL⟩ := ht
    have hw : (wrapInt (second.val + increment.val)).val = second.val + increment.val :=
      wrapInt_val _ (by unfold INT_MIN; omega) (by unfold INT_MAX; omega)
    have hlt : ¬ 0 ≤ (wrapInt (second.val + increment.val)).val := by omega
    rw [update_release_tracked h increment second s (by omega) hr, if_neg hlt]

/-- Whatever a call does, its driver calls are the earlier ones followed by nothing or
by the single call `ReleaseResult(r)` on its own argument. -/
theorem update_driverCalls (r : RESULT) (increment : CInt) (s : Runtime) :
    (__quantum__rt__result_update_reference_count r increment s).state.driverCalls
        = s.driverCalls ∨
    (__quantum__rt__result_update_reference_count r increment s).state.driverCalls
        = s.driverCalls ++ [DriverCall.ReleaseResult r] := by
  rcases lt_trichotomy increment.val 0 with hneg | h0 | hpos
  · cases hr : s.allocatedResults.lookup r with
    | none =>
      rw [update_release_untracked r increment s hneg hr]
      split_ifs <;> simp [Outcome.state]
    | some second =>
      rw [update_release_tracked r increment second s hneg hr]
      split_ifs <;> simp [Outcome.state]
  · rw [update_zero r increment s h0]; simp [Outcome.state]
  · cases hr : s.allocatedResults.lookup r with
    | none => rw [update_share_untracked r increment s hpos hr]; simp [Outcome.state]
    | some second => rw [update_share_tracked r increment second s hpos hr]; simp [Outcome.state]

/-- A call on `r` leaves the entry of every other handle as it was. -/
theorem update_lookup_other (r h : RESULT) (increment : CInt) (s : Runtime) (hne : h ≠ r) :
    (__quantum__rt__result_update_reference_count r increment s).state.allocatedResults.lookup h
      = s.allocatedResults.lookup h := by
  rcases lt_trichotomy increment.val 0 with hneg | h0 | hpos
  · cases hr : s.allocatedResults.lookup r with
    | none =>
      rw [update_release_untracked r increment s hneg hr]
      split_ifs <;> simp [Outcome.state]
    | some second =>
      rw [update_release_tracked r increment second s hneg hr]
      split_ifs <;>
        simp [Outcome.state, Finmap.lookup_insert_of_ne, Finmap.lookup_erase_ne, hne]
  · rw [update_zero r increment s h0]; simp [Outcome.state]
  · cases hr : s.allocatedResults.lookup r with
    | none =>
      rw [update_share_untracked r increment s hpos hr]
      simp [Outcome.state, Finmap.lookup_insert_of_ne, hne]
    | some second =>
      rw [update_share_tracked r increment second s hpos hr]
      simp [Outcome.state, Finmap.lookup_insert_of_ne, hne]

/-- A call on `r` does not change how often any other handle has been released. -/
theorem update_releaseCount_other (r h : RESULT) (increment : CInt) (s : Runtime) (hne : h ≠ r) :
    releaseCount h (__quantum__rt__result_update_reference_count r increment s).state
      = releaseCount h s := by
  unfold releaseCount
  rcases update_driverCalls r increment s with hd | hd
  · rw [hd]
  · rw [hd, List.count_append]
    have : DriverCall.ReleaseResult r ≠ DriverCall.ReleaseResult h := by
      intro he; injection he with he; exact hne he.symm
    simp [List.count_singleton, this]

/-- A call on `r` releases `r` at most once. -/
theorem update_releaseCount_le (r : RESULT) (increment : CInt) (s : Runtime) :
    releaseCount r (__quantum__rt__result_update_reference_count r increment s).state
      ≤ releaseCount r s + 1 := by
  unfold releaseCount
  rcases update_driverCalls r increment s with hd | hd
  · rw [hd]; omega
  · rw [hd, List.count_append]; simp

/-- Driver calls are only ever added: no call lowers a release count. -/
theorem update_releaseCount_mono (r h : RESULT) (increment : CInt) (s : Runtime) :
    releaseCount h s
      ≤ releaseCount h (__quantum__rt__result_update_reference_count r increment s).state := by
  unfold releaseCount
  rcases update_driverCalls r increment s with hd | hd
  · rw [hd]
  · rw [hd, List.count_append]; omega

/-! ## Single calls -/

/-- C3: for every state and every result `r` without a table entry, the call with
increment -1 returns, makes exactly the driver call `ReleaseResult(r)`, and leaves the
table as it was, so `r` still has no entry. -/
theorem first_release_shortcut (s : Runtime) (r : RESULT) (increment : CInt)
    (hr : s.allocatedResults.lookup r = none) (hinc : increment.val = -1) :
    __quantum__rt__result_update_reference_count r increment s
        = .returned ⟨s.allocatedResults, s.driverCalls ++ [DriverCall.ReleaseResult r]⟩ ∧
      (__quantum__rt__result_update_reference_count r increment s).state.allocatedResults.lookup r
        = none := by
  have hneg : increment.val < 0 := by omega
  rw [update_release_untracked r increment s hneg hr, if_pos hinc]
  exact ⟨rfl, hr⟩

theorem first_release_shortcut_witness :
    __quantum__rt__result_update_reference_count 7 ⟨-1, by decide⟩ Runtime.initial
        = .returned ⟨Runtime.initial.allocatedResults,
            Runtime.initial.driverCalls ++ [DriverCall.ReleaseResult 7]⟩ ∧
      (__quantum__rt__result_update_reference_count 7 ⟨-1, by decide⟩
        Runtime.initial).state.allocatedResults.lookup 7 = none :=
  first_release_shortcut Runtime.initial 7 ⟨-1, by decide⟩ (by decide) (by decide)

/-- C4, as stated, fails at the largest increment: sharing an untracked result with
increment `INT_MAX` computes `1 + INT_MAX` in `int`, and the entry stored is `INT_MIN`,
not `1 + increment`. -/
theorem share_untracked_overflows :
    Runtime.initial.allocatedResults.lookup 7 = none ∧
    (0 : Int) < 2147483647 ∧
    ((__quantum__rt__result_update_reference_count 7 ⟨2147483647, by decide⟩
        Runtime.initial).state.allocatedResults.lookup 7).map Subtype.val
      = some (-2147483648) ∧
    ((__quantum__rt__result_update_reference_count 7 ⟨2147483647, by decide⟩
        Runtime.initial).state.allocatedResults.lookup 7).map Subtype.val
      ≠ some (1 + 2147483647) := by
  decide

/-- C4, amended: for every state, every result `r` without a table entry and every
increment > 0 with `1 + increment ≤ INT_MAX`, the call returns, the table afterwards maps
`r` to exactly `1 + increment` (the old table with that one entry inserted), and no driver
call is made. -/
theorem lazy_materialization (s : Runtime) (r : RESULT) (increment : CInt)
    (hr : s.allocatedResults.lookup r = none) (hpos : 0 < increment.val)
    (hfit : 1 + increment.val ≤ INT_MAX) :
    ∃ count : CInt, count.val = 1 + increment.val ∧
      __quantum__rt__result_update_reference_count r increment s
        = .returned ⟨s.allocatedResults.insert r count, s.driverCalls⟩ ∧
      (__quantum__rt__result_update_reference_count r increment s).state.allocatedResults.lookup r
        = some count := by
  have hb := increment.lower
  have hw : (wrapInt (1 + increment.val)).val = 1 + increment.val :=
    wrapInt_val _ (by unfold INT_MIN; omega) hfit
  rw [update_share_untracked r increment s hpos hr]
  exact ⟨_, hw, rfl, Finmap.lookup_insert _⟩

theorem lazy_materialization_witness :
    ∃ count : CInt, count.val = 1 + 2 ∧
      __quantum__rt__result_update_reference_count 7 ⟨2, by decide⟩ Runtime.initial
        = .returned ⟨Runtime.initial.allocatedResults.insert 7 count,
            Runtime.initial.driverCalls⟩ ∧
      (__quantum__rt__result_update_reference_count 7 ⟨2, by decide⟩
        Runtime.initial).state.allocatedResults.lookup 7 = some count :=
  lazy_materialization Runtime.initial 7 ⟨2, by decide⟩ (by decide) (by decide) (by decide)

/-- C5: for every state in which `r` has the stored count `second` and every
increment < 0 with `second + increment ≥ 0`, the call returns; when the sum is 0 it erases
the entry of `r` and makes exactly the driver call `ReleaseResult(r)`; when the sum is
positive it stores the sum as the count of `r` and makes no driver call. -/
theorem release_tracked (s : Runtime) (r : RESULT) (second increment : CInt)
    (hr : s.allocatedResults.lookup r = some second) (hneg : increment.val < 0)
    (hge : 0 ≤ second.val + increment.val) :
    (second.val + increment.val = 0 →
      __quantum__rt__result_update_reference_count r increment s
        = .returned ⟨s.allocatedResults.erase r,
            s.driverCalls ++ [DriverCall.ReleaseResult r]⟩ ∧
      (__quantum__rt__result_update_reference_count r increment s).state.allocatedResults.lookup r
        = none) ∧
    (0 < second.val + increment.val →
      ∃ count : CInt, count.val = second.val + increment.val ∧
        __quantum__rt__result_update_reference_count r increment s
          = .returned ⟨s.allocatedResults.insert r count, s.driverCalls⟩ ∧
        (__quantum__rt__result_update_reference_count r increment s).state.allocatedResults.lookup r
          = some count) := by
  have hc := second.upper
  have hw : (wrapInt (second.val + increment.val)).val = second.val + increment.val :=
    wrapInt_val _ (by unfold INT_MIN; omega) (by unfold INT_MAX; omega)
  rw [update_release_tracked r increment second s hneg hr, if_pos (by omega)]
  constructor
  · intro hz
    rw [if_pos (by omega)]
    exact ⟨rfl, Finmap.lookup_erase r _⟩
  · intro hp
    rw [if_neg (by omega)]
    exact ⟨_, hw, rfl, Finmap.lookup_insert _⟩

theorem release_tracked_witness :
    (__quantum__rt__result_update_reference_count 7 ⟨-3, by decide⟩
          (Runtime.single 7 ⟨3, by decide⟩)
        = .returned ⟨(Runtime.single 7 ⟨3, by decide⟩).allocatedResults.erase 7,
            (Runtime.single 7 ⟨3, by decide⟩).driverCalls ++ [DriverCall.ReleaseResult 7]⟩ ∧
      (__quantum__rt__result_update_reference_count 7 ⟨-3, by decide⟩
          (Runtime.single 7 ⟨3, by decide⟩)).state.allocatedResults.lookup 7 = none) ∧
    ∃ count : CInt, count.val = 3 + (-1) ∧
      __quantum__rt__result_update_reference_count 7 ⟨-1, by decide⟩
          (Runtime.single 7 ⟨3, by decide⟩)
        = .returned ⟨(Runtime.single 7 ⟨3, by decide⟩).allocatedResults.insert 7 count,
            (Runtime.single 7 ⟨3, by decide⟩).driverCalls⟩ ∧
      (__quantum__rt__result_update_reference_count 7 ⟨-1, by decide⟩
          (Runtime.single 7 ⟨3, by decide⟩)).state.allocatedResults.lookup 7 = some count :=
  ⟨(release_tracked (Runtime.single 7 ⟨3, by decide⟩) 7 ⟨3, by decide⟩ ⟨-3, by decide⟩
      (by decide) (by decide) (by decide)).1 (by decide),
   (release_tracked (Runtime.single 7 ⟨3, by decide⟩) 7 ⟨3, by decide⟩ ⟨-1, by decide⟩
      (by decide) (by decide) (by decide)).2 (by decide)⟩

/-- C6, as stated, fails where the `int` sum overflows: with the stored count `INT_MIN`
(the table left by sharing the untracked result 7 with increment `INT_MAX`) and
increment -1 the mathematical sum is negative, yet `newRefcount` is computed as `INT_MAX`,
the assertion holds and the call returns. -/
theorem release_below_int_min_returns :
    runCalls (sharedPastIntMax.take 1) Runtime.initial
      = .returned (Runtime.single 7 ⟨-2147483648, by decide⟩) ∧
    ((-1 : Int) < 0 ∧
      ∃ second : CInt,
        (Runtime.single 7 ⟨-2147483648, by decide⟩).allocatedResults.lookup 7 = some second ∧
        second.val + (-1) < 0) ∧
    (__quantum__rt__result_update_reference_count 7 ⟨-1, by decide⟩
      (Runtime.single 7 ⟨-2147483648, by decide⟩)).isReturned = true ∧
    ((__quantum__rt__result_update_reference_count 7 ⟨-1, by decide⟩
      (Runtime.single 7 ⟨-2147483648, by decide⟩)).state.allocatedResults.lookup 7).map
        Subtype.val = some 2147483647 :=
  ⟨by decide, ⟨by decide, ⟨-2147483648, by decide⟩, by decide, by decide⟩, by decide,
    by decide⟩

/-- C6, amended: whenever the new count of a tracked result does not overflow below
`INT_MIN` (always so when the stored count is at least 0), the call fails an assertion
if and only if the increment is negative and either `r` has no entry and the increment
is not -1, or `r` has the stored count `second` and `second + increment < 0`; in every
other case the call returns. -/
theorem assertion_fails_iff (s : Runtime) (r : RESULT) (increment : CInt)
    (hfit : ∀ second : CInt, s.allocatedResults.lookup r = some second →
      INT_MIN ≤ second.val + increment.val) :
    (__quantum__rt__result_update_reference_count r increment s).isReturned = false ↔
      increment.val < 0 ∧
        ((s.allocatedResults.lookup r = none ∧ increment.val ≠ -1) ∨
          ∃ second : CInt, s.allocatedResults.lookup r = some second ∧
            second.val + increment.val < 0) := by
  rcases lt_trichotomy increment.val 0 with hneg | h0 | hpos
  · cases hr : s.allocatedResults.lookup r with
    | none =>
      rw [update_release_untracked r increment s hneg hr]
      split_ifs with h1 <;> simp [Outcome.isReturned, hneg, h1]
    | some second =>
      have hc := second.upper
      have hw : (wrapInt (second.val + increment.val)).val = second.val + increment.val :=
        wrapInt_val _ (hfit second hr) (by unfold INT_MAX; omega)
      rw [update_release_tracked r increment second s hneg hr, hw]
      split_ifs with h1 h2 <;> simp [Outcome.isReturned, hneg] <;> omega
  · rw [update_zero r increment s h0]
    simp [Outcome.isReturned, h0]
  · have hn : ¬ increment.val < 0 := by omega
    cases hr : s.allocatedResults.lookup r with
    | none =>
      rw [update_share_untracked r increment s hpos hr]
      simp [Outcome.isReturned, hn]
    | some second =>
      rw [update_share_tracked r increment second s hpos hr]
      simp [Outcome.isReturned, hn]

theorem assertion_fails_iff_witness :
    (__quantum__rt__result_update_reference_count 7 ⟨-3, by decide⟩
        (Runtime.single 7 ⟨2, by decide⟩)).isReturned = false ↔
      (-3 : Int) < 0 ∧
        (((Runtime.single 7 ⟨2, by decide⟩).allocatedResults.lookup 7 = none ∧
            (-3 : Int) ≠ -1) ∨
          ∃ second : CInt,
            (Runtime.single 7 ⟨2, by decide⟩).allocatedResults.lookup 7 = some second ∧
              second.val + (-3) < 0) :=
  assertion_fails_iff (Runtime.single 7 ⟨2, by decide⟩) 7 ⟨-3, by decide⟩
    (by
      intro second hs
      have h2 : (Runtime.single 7 ⟨2, by decide⟩).allocatedResults.lookup 7
          = some ⟨2, by decide⟩ := by decide
      have h3 : second = ⟨2, by decide⟩ := Option.some.inj (hs.symm.trans h2)
      rw [h3]
      decide)

/-- C7: on every call that fails an assertion, the state in which the process stops is
the state before the call: the table is unchanged and no driver call, in particular no
`ReleaseResult`, has been made. -/
theorem failed_assertion_changes_nothing (s s' : Runtime) (r : RESULT) (increment : CInt)
    (hfail : __quantum__rt__result_update_reference_count r increment s = .assertFailed s') :
    s'.allocatedResults = s.allocatedResults ∧ s'.driverCalls = s.driverCalls := by
  rcases lt_trichotomy increment.val 0 with hneg | h0 | hpos
  · cases hr : s.allocatedResults.lookup r with
    | none =>
      rw [update_release_untracked r increment s hneg hr] at hfail
      split_ifs at hfail
      injection hfail with hfail
      subst hfail
      exact ⟨rfl, rfl⟩
    | some second =>
      rw [update_release_tracked r increment second s hneg hr] at hfail
      split_ifs at hfail
      injection hfail with hfail
      subst hfail
      exact ⟨rfl, rfl⟩
  · rw [update_zero r increment s h0] at hfail
    cases hfail
  · cases hr : s.allocatedResults.lookup r with
    | none =>
      rw [update_share_untracked r increment s hpos hr] at hfail
      cases hfail
    | some second =>
      rw [update_share_tracked r increment second s hpos hr] at hfail
      cases hfail

theorem failed_assertion_changes_nothing_witness :
    __quantum__rt__result_update_reference_count 7 ⟨-2, by decide⟩ Runtime.initial
        = .assertFailed Runtime.initial ∧
      Runtime.initial.allocatedResults = Runtime.initial.allocatedResults ∧
      Runtime.initial.driverCalls = Runtime.initial.driverCalls :=
  have hfail : __quantum__rt__result_update_reference_count 7 ⟨-2, by decide⟩ Runtime.initial
      = .assertFailed Runtime.initial :=
    (update_release_untracked 7 ⟨-2, by decide⟩ Runtime.initial (by decide) (by decide)).trans
      (if_neg (by decide))
  ⟨hfail,
    failed_assertion_changes_nothing Runtime.initial Runtime.initial 7 ⟨-2, by decide⟩ hfail⟩

/-! ## The table invariant -/

/-- C8, as stated, fails for an increment that overflows the count: the empty table has
all counts at least 1, and after sharing result 7 with increment `INT_MAX` the table,
reached from the empty one, holds the count `INT_MIN` for it. -/
theorem share_breaks_positive_counts :
    countsPositive Runtime.initial.allocatedResults ∧
    (__quantum__rt__result_update_reference_count 7 ⟨2147483647, by decide⟩
      Runtime.initial).isReturned = true ∧
    ¬ countsPositive (__quantum__rt__result_update_reference_count 7 ⟨2147483647, by decide⟩
      Runtime.initial).state.allocatedResults := by
  refine ⟨?_, by decide, ?_⟩
  · intro r c hc
    simp [Runtime.initial, Finmap.lookup_empty] at hc
  · intro hpos
    have h1 := hpos 7 ⟨-2147483648, by decide⟩ (by decide)
    exact absurd h1 (by decide)

/-- One call keeps every count at least 1, provided a positive increment does not take the
count of its result past `INT_MAX`. Holds whether the call returns or fails. -/
theorem update_countsPositive (s : Runtime) (r : RESULT) (increment : CInt)
    (hinv : countsPositive s.allocatedResults) (hfit : incrementFits r increment s) :
    countsPositive
      (__quantum__rt__result_update_reference_count r increment s).state.allocatedResults := by
  have hb1 := increment.lower
  have hb2 := increment.upper
  unfold incrementFits at hfit
  intro r' c hc
  by_cases hne : r' = r
  · subst hne
    rcases lt_trichotomy increment.val 0 with hneg | h0 | hpos
    · cases hr : s.allocatedResults.lookup r' with
      | none =>
        rw [update_release_untracked r' increment s hneg hr] at hc
        split_ifs at hc <;> simp [Outcome.state, hr] at hc
      | some second =>
        have hs1 := hinv r' second hr
        have hs2 := second.upper
        have hw : (wrapInt (second.val + increment.val)).val = second.val + increment.val :=
          wrapInt_val _ (by unfold INT_MIN; omega) (by unfold INT_MAX; omega)
        rw [update_release_tracked r' increment second s hneg hr] at hc
        split_ifs at hc with h1 h2
        · simp [Outcome.state, Finmap.lookup_erase] at hc
        · simp only [Outcome.state, Finmap.lookup_insert, Option.some.injEq] at hc
          rw [← hc]
          omega
        · simp only [Outcome.state] at hc
          exact hinv r' c hc
    · rw [update_zero r' increment s h0] at hc
      exact hinv r' c hc
    · have hfit' := hfit hpos
      cases hr : s.allocatedResults.lookup r' with
      | none =>
        rw [hr] at hfit'
        simp only at hfit'
        have hw : (wrapInt (1 + increment.val)).val = 1 + increment.val :=
          wrapInt_val _ (by unfold INT_MIN; omega) hfit'
        rw [update_share_untracked r' increment s hpos hr] at hc
        simp only [Outcome.state, Finmap.lookup_insert, Option.some.injEq] at hc
        rw [← hc]
        omega
      | some second =>
        rw [hr] at hfit'
        simp only at hfit'
        have hs1 := hinv r' second hr
        have hw : (wrapInt (second.val + increment.val)).val = second.val + increment.val :=
          wrapInt_val _ (by unfold INT_MIN; omega) hfit'
        rw [update_share_tracked r' increment second s hpos hr] at hc
        simp only [Outcome.state, Finmap.lookup_insert, Option.some.injEq] at hc
        rw [← hc]
        omega
  · rw [update_lookup_other r r' increment s hne] at hc
    exact hinv r' c hc

/-- C8, amended: if every entry of the table has a count of at least 1, then after any
call whose positive increment does not take the count of its result past `INT_MAX`
(`1 + increment` for an untracked result, `count + increment` for a tracked one), whether
or not the call fails, every entry still has a count of at least 1; hence every table
reached from the empty one through such calls has all counts at least 1. -/
theorem counts_stay_positive :
    (∀ (s : Runtime) (r : RESULT) (increment : CInt),
      countsPositive s.allocatedResults → incrementFits r increment s →
      countsPositive
        (__quantum__rt__result_update_reference_count r increment s).state.allocatedResults) ∧
    (∀ s : Runtime, ReachableWithoutOverflow s → countsPositive s.allocatedResults) := by
  refine ⟨update_countsPositive, ?_⟩
  intro s hs
  induction hs with
  | start =>
    intro r c hc
    simp [Runtime.initial, Finmap.lookup_empty] at hc
  | call s r increment _ hfit ih => exact update_countsPositive s r increment ih hfit

theorem counts_stay_positive_witness :
    countsPositive (__quantum__rt__result_update_reference_count 7 ⟨-1, by decide⟩
        (__quantum__rt__result_update_reference_count 7 ⟨1, by decide⟩
          Runtime.initial).state).state.allocatedResults ∧
      (__quantum__rt__result_update_reference_count 7 ⟨-1, by decide⟩
        (__quantum__rt__result_update_reference_count 7 ⟨1, by decide⟩
          Runtime.initial).state).state.allocatedResults.lookup 7 = some ⟨1, by decide⟩ :=
  ⟨counts_stay_positive.2 _
    (ReachableWithoutOverflow.call _ 7 ⟨-1, by decide⟩
      (ReachableWithoutOverflow.call _ 7 ⟨1, by decide⟩ ReachableWithoutOverflow.start
        (fun _ => by show (1 : Int) + 1 ≤ INT_MAX; decide))
      (fun hpos => absurd hpos (by decide))),
   by decide⟩

/-! ## Sequences of calls -/

theorem appliedSum_cons_self (h : RESULT) (c : Call) (cs : List Call) (hc : c.1 = h) :
    appliedSum h (c :: cs) = c.2.val + appliedSum h cs := by
  simp [appliedSum, List.filter_cons, hc]

theorem appliedSum_cons_other (h : RESULT) (c : Call) (cs : List Call) (hc : c.1 ≠ h) :
    appliedSum h (c :: cs) = appliedSum h cs := by
  simp [appliedSum, List.filter_cons, hc]

theorem appliedSum_nil (h : RESULT) : appliedSum h [] = 0 := rfl

theorem appliedSum_append (h : RESULT) (xs ys : List Call) :
    appliedSum h (xs ++ ys) = appliedSum h xs + appliedSum h ys := by
  simp [appliedSum, List.filter_append]

theorem runCalls_cons_returned (c : Call) (cs : List Call) (s s1 : Runtime)
    (hu : __quantum__rt__result_update_reference_count c.1 c.2 s = .returned s1) :
    runCalls (c :: cs) s = runCalls cs s1 := by
  simp only [runCalls, hu]

theorem runCalls_cons_failed (c : Call) (cs : List Call) (s s1 : Runtime)
    (hu : __quantum__rt__result_update_reference_count c.1 c.2 s = .assertFailed s1) :
    runCalls (c :: cs) s = .assertFailed s1 := by
  simp only [runCalls, hu]

theorem runCalls_append_returned (xs ys : List Call) (s t : Runtime)
    (hx : runCalls xs s = .returned t) : runCalls (xs ++ ys) s = runCalls ys t := by
  induction xs generalizing s with
  | nil =>
    simp only [runCalls, Outcome.returned.injEq] at hx
    subst hx
    rfl
  | cons c cs ih =>
    cases hu : __quantum__rt__result_update_reference_count c.1 c.2 s with
    | returned s1 =>
      rw [runCalls_cons_returned c cs s s1 hu] at hx
      rw [List.cons_append, runCalls_cons_returned c (cs ++ ys) s s1 hu]
      exact ih s1 hx
    | assertFailed s1 =>
      rw [runCalls_cons_failed c cs s s1 hu] at hx
      cases hx

/-- Over a sequence of calls no release count goes down. -/
theorem runCalls_releaseCount_mono (h : RESULT) (calls : List Call) (s : Runtime) :
    releaseCount h s ≤ releaseCount h (runCalls calls s).state := by
  induction calls generalizing s with
  | nil => simp [runCalls, Outcome.state]
  | cons c cs ih =>
    have hm := update_releaseCount_mono c.1 h c.2 s
    cases hu : __quantum__rt__result_update_reference_count c.1 c.2 s with
    | returned s1 =>
      rw [hu] at hm
      rw [runCalls_cons_returned c cs s s1 hu]
      exact le_trans hm (ih s1)
    | assertFailed s1 =>
      rw [hu] at hm
      rw [runCalls_cons_failed c cs s s1 hu]
      exact hm

/-- While the logical count of `h` stays between 1 and `INT_MAX`, a sequence of calls
never releases `h`, keeps the entry of `h` in step with the count, and stops early only
at a failed assertion of a call on another handle. -/
theorem runCalls_alive (h : RESULT) (calls : List Call) (s : Runtime) (L : Int)
    (ht : Tracks h L s)
    (halive : ∀ k, 0 < k → k ≤ calls.length →
      1 ≤ L + appliedSum h (calls.take k) ∧ L + appliedSum h (calls.take k) ≤ INT_MAX) :
    releaseCount h (runCalls calls s).state = releaseCount h s ∧
    (∀ s', runCalls calls s = .returned s' → Tracks h (L + appliedSum h calls) s') ∧
    ((∀ k c, calls[k]? = some c → c.1 ≠ h → ∀ t, runCalls (calls.take k) s = .returned t →
        (__quantum__rt__result_update_reference_count c.1 c.2 t).isReturned = true) →
      (runCalls calls s).isReturned = true) := by
  induction calls generalizing s L with
  | nil =>
    refine ⟨rfl, ?_, fun _ => rfl⟩
    intro s' hs'
    simp only [runCalls, Outcome.returned.injEq] at hs'
    subst hs'
    simpa [appliedSum] using ht
  | cons c cs ih =>
    by_cases hc : c.1 = h
    · have h1 := halive 1 (by omega) (by simp)
      rw [List.take_succ_cons, List.take_zero, appliedSum_cons_self h c [] hc] at h1
      simp only [appliedSum, List.filter_nil, List.map_nil, List.sum_nil, add_zero] at h1
      obtain ⟨s1, hu, ht1, hd1⟩ := update_tracks_alive h c.2 s L ht h1.1 h1.2
      rw [← hc] at hu
      have hrc : releaseCount h s1 = releaseCount h s := by
        unfold releaseCount; rw [hd1]
      have halive1 : ∀ k, 0 < k → k ≤ cs.length →
          1 ≤ (L + c.2.val) + appliedSum h (cs.take k) ∧
            (L + c.2.val) + appliedSum h (cs.take k) ≤ INT_MAX := by
        intro k hk hkl
        have h2 := halive (k + 1) (by omega) (by simp; omega)
        rw [List.take_succ_cons, appliedSum_cons_self h c _ hc] at h2
        constructor <;> [have := h2.1; have := h2.2] <;> omega
      obtain ⟨ih1, ih2, ih3⟩ := ih s1 (L + c.2.val) ht1 halive1
      rw [runCalls_cons_returned c cs s s1 hu, appliedSum_cons_self h c cs hc]
      refine ⟨ih1.trans hrc, ?_, ?_⟩
      · intro s' hs'
        have := ih2 s' hs'
        rwa [← add_assoc]
      · intro hothers
        apply ih3
        intro k c' hk hne t hrun
        apply hothers (k + 1) c' (by simpa using hk) hne t
        rw [List.take_succ_cons, runCalls_cons_returned c _ s s1 hu]
        exact hrun
    · have hne : h ≠ c.1 := fun he => hc he.symm
      have hlook := update_lookup_other c.1 h c.2 s hne
      have hrel := update_releaseCount_other c.1 h c.2 s hne
      have halive1 : ∀ k, 0 < k → k ≤ cs.length →
          1 ≤ L + appliedSum h (cs.take k) ∧ L + appliedSum h (cs.take k) ≤ INT_MAX := by
        intro k hk hkl
        have h2 := halive (k + 1) (by omega) (by simp; omega)
        rwa [List.take_succ_cons, appliedSum_cons_other h c _ hc] at h2
      cases hu : __quantum__rt__result_update_reference_count c.1 c.2 s with
      | returned s1 =>
        rw [hu] at hlook hrel
        simp only [Outcome.state] at hlook hrel
        have ht1 : Tracks h L s1 := by
          unfold Tracks at ht ⊢
          rw [hlook]; exact ht
        obtain ⟨ih1, ih2, ih3⟩ := ih s1 L ht1 halive1
        rw [runCalls_cons_returned c cs s s1 hu, appliedSum_cons_other h c cs hc]
        refine ⟨ih1.trans hrel, ih2, ?_⟩
        intro hothers
        apply ih3
        intro k c' hk hne' t hrun
        apply hothers (k + 1) c' (by simpa using hk) hne' t
        rw [List.take_succ_cons, runCalls_cons_returned c _ s s1 hu]
        exact hrun
      | assertFailed s1 =>
        rw [hu] at hrel
        simp only [Outcome.state] at hrel
        rw [runCalls_cons_failed c cs s s1 hu]
        refine ⟨hrel, ?_, ?_⟩
        · intro s' hs'
          cases hs'
        · intro hothers
          have := hothers 0 c (by simp) hc s (by simp [runCalls])
          rw [hu] at this
          simp [Outcome.isReturned] at this

theorem Tracks.one_le {h : RESULT} {L : Int} {s : Runtime} (ht : Tracks h L s) : 1 ≤ L := by
  unfold Tracks at ht
  cases hr : s.allocatedResults.lookup h with
  | none => rw [hr] at ht; simp only at ht; omega
  | some second => rw [hr] at ht; exact ht.2

theorem tracks_initial (h : RESULT) : Tracks h 1 Runtime.initial := by
  simp [Tracks, Runtime.initial, Finmap.lookup_empty]

/-- While `h` is not released and no call fails, the entry of `h` stays in step with its
logical count, as long as that count has not gone past `INT_MAX`. -/
theorem runCalls_unreleased (h : RESULT) (calls : List Call) (s s' : Runtime) (L : Int)
    (ht : Tracks h L s) (hrun : runCalls calls s = .returned s')
    (hrel : releaseCount h s' = releaseCount h s)
    (hfit : ∀ k, 0 < k → k ≤ calls.length → L + appliedSum h (calls.take k) ≤ INT_MAX) :
    Tracks h (L + appliedSum h calls) s' := by
  induction calls generalizing s L with
  | nil =>
    simp only [runCalls, Outcome.returned.injEq] at hrun
    subst hrun
    simpa [appliedSum] using ht
  | cons c cs ih =>
    cases hu : __quantum__rt__result_update_reference_count c.1 c.2 s with
    | assertFailed s1 =>
      rw [runCalls_cons_failed c cs s s1 hu] at hrun
      cases hrun
    | returned s1 =>
      rw [runCalls_cons_returned c cs s s1 hu] at hrun
      have hm1 := update_releaseCount_mono c.1 h c.2 s
      rw [hu] at hm1
      simp only [Outcome.state] at hm1
      have hm2 := runCalls_releaseCount_mono h cs s1
      rw [hrun] at hm2
      simp only [Outcome.state] at hm2
      have hrel1 : releaseCount h s1 = releaseCount h s := by omega
      by_cases hc : c.1 = h
      · have h1 := hfit 1 (by omega) (by simp)
        rw [List.take_succ_cons, List.take_zero, appliedSum_cons_self h c [] hc] at h1
        simp only [appliedSum, List.filter_nil, List.map_nil, List.sum_nil, add_zero] at h1
        have ht1 : Tracks h (L + c.2.val) s1 := by
          rcases lt_trichotomy (L + c.2.val) 0 with hlt | heq | hgt
          · have hf := update_tracks_over h c.2 s L ht hlt
            rw [← hc, hu] at hf
            cases hf
          · obtain ⟨s2, hu2, _, hd2⟩ := update_tracks_last h c.2 s L ht heq
            rw [← hc, hu] at hu2
            injection hu2 with hu2
            subst hu2
            exfalso
            unfold releaseCount at hrel1
            rw [hd2, List.count_append] at hrel1
            simp at hrel1
          · obtain ⟨s2, hu2, ht2, _⟩ := update_tracks_alive h c.2 s L ht (by omega) h1
            rw [← hc, hu] at hu2
            injection hu2 with hu2
            subst hu2
            exact ht2
        have hfit1 : ∀ k, 0 < k → k ≤ cs.length →
            (L + c.2.val) + appliedSum h (cs.take k) ≤ INT_MAX := by
          intro k hk hkl
          have h2 := hfit (k + 1) (by omega) (by simp; omega)
          rw [List.take_succ_cons, appliedSum_cons_self h c _ hc] at h2
          omega
        have := ih s1 (L + c.2.val) ht1 hrun (hrel.trans hrel1.symm) hfit1
        rw [appliedSum_cons_self h c cs hc]
        rwa [← add_assoc]
      · have hne : h ≠ c.1 := fun he => hc he.symm
        have hlook := update_lookup_other c.1 h c.2 s hne
        rw [hu] at hlook
        simp only [Outcome.state] at hlook
        have ht1 : Tracks h L s1 := by
          unfold Tracks at ht ⊢
          rw [hlook]; exact ht
        have hfit1 : ∀ k, 0 < k → k ≤ cs.length → L + appliedSum h (cs.take k) ≤ INT_MAX := by
          intro k hk hkl
          have h2 := hfit (k + 1) (by omega) (by simp; omega)
          rwa [List.take_succ_cons, appliedSum_cons_other h c _ hc] at h2
        rw [appliedSum_cons_other h c cs hc]
        exact ih s1 L ht1 hrun (hrel.trans hrel1.symm) hfit1

/-- As long as every call on `h` is made while the logical count of `h` is at least 1 and
leaves it at most `INT_MAX`, `h` is released at most once: while the count is at least 1
the entry is in step with it and nothing has been released, and the one call that brings it
to 0 is the last call on `h`. -/
theorem runCalls_released_once (h : RESULT) (calls : List Call) (s : Runtime) (L : Int)
    (hle : releaseCount h s ≤ 1)
    (hlive : 1 ≤ L → Tracks h L s ∧ releaseCount h s = 0)
    (hcounted : ∀ k c, calls[k]? = some c → c.1 = h →
      1 ≤ L + appliedSum h (calls.take k) ∧
        L + appliedSum h (calls.take (k + 1)) ≤ INT_MAX) :
    releaseCount h (runCalls calls s).state ≤ 1 := by
  induction calls generalizing s L with
  | nil => simpa [runCalls, Outcome.state] using hle
  | cons c cs ih =>
    by_cases hc : c.1 = h
    · have h0 := hcounted 0 c (by simp) hc
      rw [List.take_zero, appliedSum_nil, add_zero, List.take_succ_cons, List.take_zero,
        appliedSum_cons_self h c [] hc, appliedSum_nil, add_zero] at h0
      obtain ⟨ht, hrel⟩ := hlive h0.1
      have htail : ∀ k c', cs[k]? = some c' → c'.1 = h →
          1 ≤ (L + c.2.val) + appliedSum h (cs.take k) ∧
            (L + c.2.val) + appliedSum h (cs.take (k + 1)) ≤ INT_MAX := by
        intro k c' hk hc'
        have h2 := hcounted (k + 1) c' (by simpa using hk) hc'
        rw [List.take_succ_cons, List.take_succ_cons, appliedSum_cons_self h c _ hc,
          appliedSum_cons_self h c _ hc] at h2
        constructor <;> [have := h2.1; have := h2.2] <;> omega
      rcases lt_trichotomy (L + c.2.val) 0 with hlt | heq | hgt
      · have hf := update_tracks_over h c.2 s L ht hlt
        rw [← hc] at hf
        rw [runCalls_cons_failed c cs s s hf]
        exact hle
      · obtain ⟨s1, hu, _, hd⟩ := update_tracks_last h c.2 s L ht heq
        rw [← hc] at hu
        have hrel1 : releaseCount h s1 = 1 := by
          unfold releaseCount at hrel ⊢
          rw [hd, List.count_append, hrel]
          simp
        rw [runCalls_cons_returned c cs s s1 hu]
        exact ih s1 (L + c.2.val) (by omega) (fun hpos => by omega) htail
      · obtain ⟨s1, hu, ht1, hd⟩ := update_tracks_alive h c.2 s L ht (by omega) h0.2
        rw [← hc] at hu
        have hrel1 : releaseCount h s1 = 0 := by
          unfold releaseCount at hrel ⊢
          rw [hd, hrel]
        rw [runCalls_cons_returned c cs s s1 hu]
        exact ih s1 (L + c.2.val) (by omega) (fun _ => ⟨ht1, hrel1⟩) htail
    · have hne : h ≠ c.1 := fun he => hc he.symm
      have hlook := update_lookup_other c.1 h c.2 s hne
      have hrel := update_releaseCount_other c.1 h c.2 s hne
      have htail : ∀ k c', cs[k]? = some c' → c'.1 = h →
          1 ≤ L + appliedSum h (cs.take k) ∧
            L + appliedSum h (cs.take (k + 1)) ≤ INT_MAX := by
        intro k c' hk hc'
        have h2 := hcounted (k + 1) c' (by simpa using hk) hc'
        rwa [List.take_succ_cons, List.take_succ_cons, appliedSum_cons_other h c _ hc,
          appliedSum_cons_other h c _ hc] at h2
      cases hu : __quantum__rt__result_update_reference_count c.1 c.2 s with
      | returned s1 =>
        rw [hu] at hlook hrel
        simp only [Outcome.state] at hlook hrel
        rw [runCalls_cons_returned c cs s s1 hu]
        apply ih s1 L (by omega) _ htail
        intro hpos
        obtain ⟨ht, hr0⟩ := hlive hpos
        refine ⟨?_, by omega⟩
        unfold Tracks at ht ⊢
        rw [hlook]; exact ht
      | assertFailed s1 =>
        rw [hu] at hrel
        simp only [Outcome.state] at hrel
        rw [runCalls_cons_failed c cs s s1 hu]
        simp only [Outcome.state]
        omega

/-! ## Lifetime of a result -/

/-- C1, as stated, fails in two ways. A call on another handle may fail its assertion
before the last call on `h` is reached: in `otherHandleOverReleased` the logical count of
result 7 is 1 after the first call and 0 after the last, the first call fails, and result 7
is never released. And the logical count may pass `INT_MAX`: in `sharedPastIntMax` it is
`2^31`, `2^31 + 1`, `2^31` and then 0, the stored count has wrapped to a negative value, the
third call fails its assertion, and result 7 is never released. -/
theorem zero_count_without_release :
    ((∀ k, 0 < k → k < otherHandleOverReleased.length →
        1 ≤ logicalCount 7 (otherHandleOverReleased.take k)) ∧
      logicalCount 7 otherHandleOverReleased = 0 ∧
      (runCalls otherHandleOverReleased Runtime.initial).isReturned = false ∧
      releaseCount 7 (runCalls otherHandleOverReleased Runtime.initial).state = 0) ∧
    ((∀ k, 0 < k → k < sharedPastIntMax.length →
        1 ≤ logicalCount 7 (sharedPastIntMax.take k)) ∧
      logicalCount 7 sharedPastIntMax = 0 ∧
      (runCalls sharedPastIntMax Runtime.initial).isReturned = false ∧
      (runCalls (sharedPastIntMax.take 2) Runtime.initial).isReturned = true ∧
      (runCalls (sharedPastIntMax.take 3) Runtime.initial).isReturned = false ∧
      releaseCount 7 (runCalls sharedPastIntMax Runtime.initial).state = 0) := by
  refine ⟨⟨?_, by decide, by decide, by decide⟩,
    ⟨?_, by decide, by decide, by decide, by decide, by decide⟩⟩
  · intro k hk hlt
    have hlt' : k < 2 := hlt
    interval_cases k
    decide
  · intro k hk hlt
    have hlt' : k < 4 := hlt
    interval_cases k <;> decide

/-- C1, amended: for every handle `h` and every sequence of calls made from the empty
table, with calls on other handles interleaved, none of which fails its assertion: if the
running logical count of `h` is between 1 and `INT_MAX` after every call but the last and
is 0 after the last call, then the whole sequence runs without a failed assertion,
`ReleaseResult(h)` has not been called before the last call and has been called exactly
once after it, and `h` has no table entry afterwards. -/
theorem released_once_at_zero (h : RESULT) (calls : List Call)
    (halive : ∀ k, 0 < k → k < calls.length →
      1 ≤ logicalCount h (calls.take k) ∧ logicalCount h (calls.take k) ≤ INT_MAX)
    (hzero : logicalCount h calls = 0)
    (hothers : ∀ k c, calls[k]? = some c → c.1 ≠ h →
      ∀ t, runCalls (calls.take k) Runtime.initial = .returned t →
        (__quantum__rt__result_update_reference_count c.1 c.2 t).isReturned = true) :
    ∃ t s', runCalls calls.dropLast Runtime.initial = .returned t ∧ releaseCount h t = 0 ∧
      runCalls calls Runtime.initial = .returned s' ∧ releaseCount h s' = 1 ∧
      s'.allocatedResults.lookup h = none := by
  rcases List.eq_nil_or_concat calls with hnil | ⟨pre, last, hcat⟩
  · subst hnil
    simp [logicalCount, appliedSum] at hzero
  · rw [List.concat_eq_append] at hcat
    subst hcat
    have halive1 : ∀ k, 0 < k → k ≤ pre.length →
        1 ≤ 1 + appliedSum h (pre.take k) ∧ 1 + appliedSum h (pre.take k) ≤ INT_MAX := by
      intro k hk hkl
      have := halive k hk (by simp; omega)
      rwa [List.take_append_of_le_length hkl] at this
    obtain ⟨hrel, htr, hret⟩ := runCalls_alive h pre Runtime.initial 1 (tracks_initial h) halive1
    have hret1 : (runCalls pre Runtime.initial).isReturned = true := by
      apply hret
      intro k c hk hne t hrun
      have hkl : k < pre.length := by
        rcases Nat.lt_or_ge k pre.length with hlt | hge
        · exact hlt
        · rw [List.getElem?_eq_none hge] at hk
          cases hk
      apply hothers k c _ hne t
      · rw [List.take_append_of_le_length (Nat.le_of_lt hkl)]
        exact hrun
      · rw [List.getElem?_append_left hkl]
        exact hk
    cases hpre : runCalls pre Runtime.initial with
    | assertFailed t =>
      rw [hpre] at hret1
      simp [Outcome.isReturned] at hret1
    | returned t =>
      rw [hpre] at hrel
      simp only [Outcome.state] at hrel
      have ht := htr t hpre
      have hrel0 : releaseCount h t = 0 := by
        rw [hrel]; simp [releaseCount, Runtime.initial]
      have hz : 1 + (appliedSum h pre + appliedSum h [last]) = 0 := by
        have := hzero
        unfold logicalCount at this
        rwa [appliedSum_append] at this
      have hlast : last.1 = h := by
        by_contra hne
        rw [appliedSum_cons_other h last [] hne, appliedSum_nil] at hz
        have := ht.one_le
        omega
      rw [appliedSum_cons_self h last [] hlast, appliedSum_nil] at hz
      obtain ⟨s', hu, hnone, hd⟩ :=
        update_tracks_last h last.2 t (1 + appliedSum h pre) ht (by omega)
      rw [← hlast] at hu
      refine ⟨t, s', ?_, hrel0, ?_, ?_, hnone⟩
      · rw [List.dropLast_concat]
        exact hpre
      · rw [runCalls_append_returned pre [last] Runtime.initial t hpre,
          runCalls_cons_returned last [] t s' hu]
        rfl
      · unfold releaseCount at hrel0 ⊢
        rw [hd, List.count_append, hrel0]
        simp

theorem released_once_at_zero_witness :
    ∃ t s', runCalls shareThenRelease.dropLast Runtime.initial = .returned t ∧
      releaseCount 7 t = 0 ∧
      runCalls shareThenRelease Runtime.initial = .returned s' ∧ releaseCount 7 s' = 1 ∧
      s'.allocatedResults.lookup 7 = none :=
  released_once_at_zero 7 shareThenRelease
    (by
      intro k hk hlt
      have hlt' : k < 4 := hlt
      interval_cases k <;> decide)
    (by decide)
    (by
      intro k c hk hne t hrun
      rcases k with _ | _ | _ | _ | k
      · simp [shareThenRelease] at hk
        subst hk
        exact absurd rfl hne
      · have ht : runCalls (shareThenRelease.take 1) Runtime.initial
            = .returned (Runtime.single 7 ⟨2, by decide⟩) := by decide
        rw [ht] at hrun
        injection hrun with hrun
        simp [shareThenRelease] at hk
        subst hk hrun
        decide
      · simp [shareThenRelease] at hk
        subst hk
        exact absurd rfl hne
      · simp [shareThenRelease] at hk
        subst hk
        exact absurd rfl hne
      · simp [shareThenRelease] at hk)

/-- C2, as stated, fails in two ways. The table keeps no record of a released result, so
a second release of the unshared result 7 takes the untracked branch again: in
`releasedTwice` no call fails and `ReleaseResult(7)` is called twice, the second time on a
result whose logical count is already 0. And the logical count may pass `INT_MAX`: in
`releasedPastWordSize` no call fails and every call is made while the logical count of
result 7 is at least 1, yet the stored count wraps to 0 at the logical count `2^32`, where
result 7 is released, and the next release, at the logical count `2^32 - 1`, releases it
again. -/
theorem released_twice :
    ((runCalls releasedTwice Runtime.initial).isReturned = true ∧
      logicalCount 7 (releasedTwice.take 1) = 0 ∧
      releaseCount 7 (runCalls releasedTwice Runtime.initial).state = 2 ∧
      (runCalls releasedTwice Runtime.initial).state.driverCalls
        = [DriverCall.ReleaseResult 7, DriverCall.ReleaseResult 7]) ∧
    ((runCalls releasedPastWordSize Runtime.initial).isReturned = true ∧
      (∀ k, k < releasedPastWordSize.length →
        1 ≤ logicalCount 7 (releasedPastWordSize.take k)) ∧
      logicalCount 7 (releasedPastWordSize.take 4) = 4294967296 ∧
      releaseCount 7 (runCalls (releasedPastWordSize.take 4) Runtime.initial).state = 1 ∧
      releaseCount 7 (runCalls releasedPastWordSize Runtime.initial).state = 2) := by
  refine ⟨by decide, by decide, ?_, by decide, by decide, by decide⟩
  intro k hk
  have hk' : k < 5 := hk
  interval_cases k <;> decide

/-- C2, amended: for every sequence of calls made from the empty table in which every
call is made on a handle whose running logical count (1 plus the sum of the increments
applied to it so far) is at least 1 before the call and at most `INT_MAX` after it,
`ReleaseResult` is called at most once per handle, whether the sequence runs to its end
without a failed assertion or is stopped by one. -/
theorem released_at_most_once (calls : List Call)
    (hcounted : ∀ k c, calls[k]? = some c →
      1 ≤ logicalCount c.1 (calls.take k) ∧
        logicalCount c.1 (calls.take (k + 1)) ≤ INT_MAX) :
    ∀ h, releaseCount h (runCalls calls Runtime.initial).state ≤ 1 := by
  intro h
  apply runCalls_released_once h calls Runtime.initial 1
  · simp [releaseCount, Runtime.initial]
  · intro _
    exact ⟨tracks_initial h, by simp [releaseCount, Runtime.initial]⟩
  · intro k c hk hc
    have := hcounted k c hk
    rw [hc] at this
    exact this

theorem released_at_most_once_witness :
    (runCalls shareThenRelease Runtime.initial).isReturned = true ∧
    releaseCount 7 (runCalls shareThenRelease Runtime.initial).state = 1 ∧
    releaseCount 8 (runCalls shareThenRelease Runtime.initial).state = 1 ∧
    ∀ h, releaseCount h (runCalls shareThenRelease Runtime.initial).state ≤ 1 :=
  ⟨by decide, by decide, by decide,
    released_at_most_once shareThenRelease (by
      intro k c hk
      rcases k with _ | _ | _ | _ | k
      · simp [shareThenRelease] at hk
        subst hk
        decide
      · simp [shareThenRelease] at hk
        subst hk
        decide
      · simp [shareThenRelease] at hk
        subst hk
        decide
      · simp [shareThenRelease] at hk
        subst hk
        decide
      · simp [shareThenRelease] at hk)⟩

/-- C9, as stated, fails once the logical count passes `INT_MAX`: after the single call
sharing the untracked result 7 with increment `INT_MAX`, which returns and releases
nothing, the logical count is `2^31` and the table entry is `INT_MIN`. -/
theorem entry_differs_after_overflow :
    (runCalls (sharedPastIntMax.take 1) Runtime.initial).isReturned = true ∧
    releaseCount 7 (runCalls (sharedPastIntMax.take 1) Runtime.initial).state = 0 ∧
    logicalCount 7 (sharedPastIntMax.take 1) = 2147483648 ∧
    ((runCalls (sharedPastIntMax.take 1)
        Runtime.initial).state.allocatedResults.lookup 7).map Subtype.val
      = some (-2147483648) := by
  decide

/-- C9, amended: for every handle `h` and every sequence of calls from the empty table
in which no call fails, `h` is never released and the logical count of `h` never passes
`INT_MAX`, whenever `h` has a table entry that entry equals the logical count of `h`, 1
plus the sum of the increments applied to `h` so far. In particular, from an untracked
`h`, the call with +1 gives the entry 2, the call with -1 then gives the entry 1 with no
driver call, and a further call with -1 removes the entry with the one driver call
`ReleaseResult(h)`. -/
theorem entry_is_logical_count :
    (∀ (h : RESULT) (calls : List Call) (s' : Runtime),
      runCalls calls Runtime.initial = .returned s' → releaseCount h s' = 0 →
      (∀ k, k ≤ calls.length → logicalCount h (calls.take k) ≤ INT_MAX) →
      ∀ count : CInt, s'.allocatedResults.lookup h = some count →
        count.val = logicalCount h calls) ∧
    (∀ (h : RESULT) (s : Runtime), s.allocatedResults.lookup h = none →
      ∃ s1 s2 s3 : Runtime,
        __quantum__rt__result_update_reference_count h ⟨1, by decide⟩ s = .returned s1 ∧
        (s1.allocatedResults.lookup h).map Subtype.val = some 2 ∧
        s1.driverCalls = s.driverCalls ∧
        __quantum__rt__result_update_reference_count h ⟨-1, by decide⟩ s1 = .returned s2 ∧
        (s2.allocatedResults.lookup h).map Subtype.val = some 1 ∧
        s2.driverCalls = s.driverCalls ∧
        __quantum__rt__result_update_reference_count h ⟨-1, by decide⟩ s2 = .returned s3 ∧
        s3.allocatedResults.lookup h = none ∧
        s3.driverCalls = s.driverCalls ++ [DriverCall.ReleaseResult h]) := by
  constructor
  · intro h calls s' hrun hrel hfit count hcount
    have ht := runCalls_unreleased h calls Runtime.initial s' 1 (tracks_initial h) hrun
      (by rw [hrel]; simp [releaseCount, Runtime.initial])
      (fun k _ hkl => hfit k hkl)
    unfold Tracks at ht
    rw [hcount] at ht
    exact ht.1
  · intro h s hr
    have e1 := update_share_untracked h ⟨1, by decide⟩ s (by decide) hr
    have l1 : (s.allocatedResults.insert h (wrapInt (1 + 1))).lookup h
        = some (wrapInt (1 + 1)) := Finmap.lookup_insert _
    have e2 := update_release_tracked h ⟨-1, by decide⟩ (wrapInt (1 + 1))
      ⟨s.allocatedResults.insert h (wrapInt (1 + 1)), s.driverCalls⟩ (by decide) l1
    rw [if_pos (by decide), if_neg (by decide)] at e2
    have l2 : ((s.allocatedResults.insert h (wrapInt (1 + 1))).insert h
          (wrapInt ((wrapInt (1 + 1)).val + (-1)))).lookup h
        = some (wrapInt ((wrapInt (1 + 1)).val + (-1))) := Finmap.lookup_insert _
    have e3 := update_release_tracked h ⟨-1, by decide⟩ (wrapInt ((wrapInt (1 + 1)).val + (-1)))
      ⟨(s.allocatedResults.insert h (wrapInt (1 + 1))).insert h
          (wrapInt ((wrapInt (1 + 1)).val + (-1))), s.driverCalls⟩ (by decide) l2
    rw [if_pos (by decide), if_pos (by decide)] at e3
    refine ⟨_, _, _, e1, ?_, rfl, e2, ?_, rfl, e3, Finmap.lookup_erase h _, rfl⟩
    · rw [l1]; decide
    · rw [l2]; decide

theorem entry_is_logical_count_witness :
    ∀ count : CInt,
      (Runtime.single 7 ⟨2, by decide⟩).allocatedResults.lookup 7 = some count →
        count.val = logicalCount 7 (shareThenRelease.take 1) :=
  entry_is_logical_count.1 7 (shareThenRelease.take 1) (Runtime.single 7 ⟨2, by decide⟩)
    (by decide) (by decide)
    (by
      intro k hkl
      have hkl' : k ≤ 1 := hkl
      interval_cases k <;> decide)

/-- C10, as stated, fails once the logical count passes `INT_MAX`: in
`sharedPastWordSize` the logical count of result 7 is `2^31`, `2^32 - 1`, `2^32 + 1` and
`2^32`, at least 1 after every call, while the stored count has wrapped to 1 before the
last call, which brings it to 0 and calls `ReleaseResult(7)`. -/
theorem released_with_positive_count :
    (∀ k, 0 < k → k ≤ sharedPastWordSize.length →
      1 ≤ logicalCount 7 (sharedPastWordSize.take k)) ∧
    logicalCount 7 sharedPastWordSize = 4294967296 ∧
    (runCalls sharedPastWordSize Runtime.initial).state.driverCalls
      = [DriverCall.ReleaseResult 7] := by
  refine ⟨?_, by decide, by decide⟩
  intro k hk hkl
  have hkl' : k ≤ 4 := hkl
  interval_cases k <;> decide

/-- C10, amended: for every handle `h` and every sequence of calls from the empty table,
if the running logical count of `h` is between 1 and `INT_MAX` after every call, then
`ReleaseResult(h)` is not among the driver calls made by the sequence, whether the
sequence runs to its end or is stopped by a failed assertion. -/
theorem never_released_while_counted (h : RESULT) (calls : List Call)
    (halive : ∀ k, 0 < k → k ≤ calls.length →
      1 ≤ logicalCount h (calls.take k) ∧ logicalCount h (calls.take k) ≤ INT_MAX) :
    DriverCall.ReleaseResult h ∉ (runCalls calls Runtime.initial).state.driverCalls := by
  have hrel := (runCalls_alive h calls Runtime.initial 1 (tracks_initial h) halive).1
  rw [← List.count_eq_zero]
  unfold releaseCount at hrel
  rw [hrel]
  simp [Runtime.initial]

theorem never_released_while_counted_witness :
    DriverCall.ReleaseResult 7 ∉
      (runCalls (shareThenRelease.take 3) Runtime.initial).state.driverCalls :=
  never_released_while_counted 7 (shareThenRelease.take 3)
    (by
      intro k hk hkl
      have hkl' : k ≤ 3 := hkl
      interval_cases k <;> decide)

/-! ## Further single-call properties -/

/-- C11: for every state and every result `r`, tracked or not, the call with increment 0
returns and leaves the state as it was: the table is unchanged and no driver call is
made. -/
theorem zero_increment_is_noop (s : Runtime) (r : RESULT) (increment : CInt)
    (h0 : increment.val = 0) :
    __quantum__rt__result_update_reference_count r increment s = .returned s ∧
    (__quantum__rt__result_update_reference_count r increment s).state.allocatedResults
      = s.allocatedResults ∧
    (__quantum__rt__result_update_reference_count r increment s).state.driverCalls
      = s.driverCalls := by
  rw [update_zero r increment s h0]
  exact ⟨rfl, rfl, rfl⟩

theorem zero_increment_is_noop_witness :
    (__quantum__rt__result_update_reference_count 7 ⟨0, by decide⟩
        (Runtime.single 7 ⟨3, by decide⟩) = .returned (Runtime.single 7 ⟨3, by decide⟩) ∧
      (__quantum__rt__result_update_reference_count 7 ⟨0, by decide⟩
        (Runtime.single 7 ⟨3, by decide⟩)).state.allocatedResults
        = (Runtime.single 7 ⟨3, by decide⟩).allocatedResults ∧
      (__quantum__rt__result_update_reference_count 7 ⟨0, by decide⟩
        (Runtime.single 7 ⟨3, by decide⟩)).state.driverCalls
        = (Runtime.single 7 ⟨3, by decide⟩).driverCalls) ∧
    __quantum__rt__result_update_reference_count 8 ⟨0, by decide⟩
        (Runtime.single 7 ⟨3, by decide⟩) = .returned (Runtime.single 7 ⟨3, by decide⟩) :=
  ⟨zero_increment_is_noop (Runtime.single 7 ⟨3, by decide⟩) 7 ⟨0, by decide⟩ (by decide),
   (zero_increment_is_noop (Runtime.single 7 ⟨3, by decide⟩) 8 ⟨0, by decide⟩ (by decide)).1⟩

/-- C12, as stated, fails when the sum passes `INT_MAX`: result 7 gets the stored count
`INT_MAX` by being shared with increment `INT_MAX - 1` from the empty table, and sharing
it once more stores `INT_MIN`, not `INT_MAX + 1`. -/
theorem share_tracked_overflows :
    __quantum__rt__result_update_reference_count 7 ⟨2147483646, by decide⟩ Runtime.initial
      = .returned (Runtime.single 7 ⟨2147483647, by decide⟩) ∧
    ((Runtime.single 7 ⟨2147483647, by decide⟩).allocatedResults.lookup 7).map Subtype.val
      = some 2147483647 ∧
    (0 : Int) < 1 ∧
    (__quantum__rt__result_update_reference_count 7 ⟨1, by decide⟩
      (Runtime.single 7 ⟨2147483647, by decide⟩)).isReturned = true ∧
    ((__quantum__rt__result_update_reference_count 7 ⟨1, by decide⟩
        (Runtime.single 7 ⟨2147483647, by decide⟩)).state.allocatedResults.lookup 7).map
          Subtype.val = some (-2147483648) ∧
    ((__quantum__rt__result_update_reference_count 7 ⟨1, by decide⟩
        (Runtime.single 7 ⟨2147483647, by decide⟩)).state.allocatedResults.lookup 7).map
          Subtype.val ≠ some (2147483647 + 1) := by
  decide

/-- C12, amended: for every state in which `r` has the stored count `second` and every
increment > 0 with `second + increment ≤ INT_MAX`, the call returns, the table afterwards
maps `r` to `second + increment` (the old table with that entry replaced), and no driver
call is made. -/
theorem share_tracked (s : Runtime) (r : RESULT) (second increment : CInt)
    (hr : s.allocatedResults.lookup r = some second) (hpos : 0 < increment.val)
    (hfit : second.val + increment.val ≤ INT_MAX) :
    ∃ count : CInt, count.val = second.val + increment.val ∧
      __quantum__rt__result_update_reference_count r increment s
        = .returned ⟨s.allocatedResults.insert r count, s.driverCalls⟩ ∧
      (__quantum__rt__result_update_reference_count r increment s).state.allocatedResults.lookup r
        = some count := by
  have hc := second.lower
  have hw : (wrapInt (second.val + increment.val)).val = second.val + increment.val :=
    wrapInt_val _ (by unfold INT_MIN; omega) hfit
  rw [update_share_tracked r increment second s hpos hr]
  exact ⟨_, hw, rfl, Finmap.lookup_insert _⟩

theorem share_tracked_witness :
    ∃ count : CInt, count.val = 3 + 2 ∧
      __quantum__rt__result_update_reference_count 7 ⟨2, by decide⟩
          (Runtime.single 7 ⟨3, by decide⟩)
        = .returned ⟨(Runtime.single 7 ⟨3, by decide⟩).allocatedResults.insert 7 count,
            (Runtime.single 7 ⟨3, by decide⟩).driverCalls⟩ ∧
      (__quantum__rt__result_update_reference_count 7 ⟨2, by decide⟩
          (Runtime.single 7 ⟨3, by decide⟩)).state.allocatedResults.lookup 7 = some count :=
  share_tracked (Runtime.single 7 ⟨3, by decide⟩) 7 ⟨3, by decide⟩ ⟨2, by decide⟩
    (by decide) (by decide) (by decide)

/-- C16: for every state, result `r` and increment, the call leaves the entry of every
other handle as it was, present or absent, and the driver calls it makes, if any, are
all `ReleaseResult(r)`, on the handle it was called with. -/
theorem update_touches_only_its_handle (s : Runtime) (r : RESULT) (increment : CInt) :
    (∀ h, h ≠ r →
      (__quantum__rt__result_update_reference_count r increment s).state.allocatedResults.lookup h
        = s.allocatedResults.lookup h) ∧
    ∃ made : List DriverCall,
      (__quantum__rt__result_update_reference_count r increment s).state.driverCalls
        = s.driverCalls ++ made ∧
      ∀ c ∈ made, c = DriverCall.ReleaseResult r := by
  refine ⟨fun h hne => update_lookup_other r h increment s hne, ?_⟩
  rcases update_driverCalls r increment s with hd | hd
  · exact ⟨[], by rw [hd, List.append_nil], by simp⟩
  · exact ⟨[DriverCall.ReleaseResult r], hd, by simp⟩

theorem update_touches_only_its_handle_witness :
    (__quantum__rt__result_update_reference_count 7 ⟨-1, by decide⟩
        (Runtime.single 8 ⟨3, by decide⟩)).state.allocatedResults.lookup 8
      = (Runtime.single 8 ⟨3, by decide⟩).allocatedResults.lookup 8 ∧
    (__quantum__rt__result_update_reference_count 7 ⟨-1, by decide⟩
        (Runtime.single 8 ⟨3, by decide⟩)).state.driverCalls
      = [DriverCall.ReleaseResult 7] :=
  ⟨(update_touches_only_its_handle (Runtime.single 8 ⟨3, by decide⟩) 7 ⟨-1, by decide⟩).1 8
      (by decide),
   by decide⟩

/-- The one-entry table has no entry for any other handle. -/
theorem single_lookup_other (h r : RESULT) (count : CInt) (hr : r ≠ h) :
    (Runtime.single h count).allocatedResults.lookup r = none := by
  rw [Finmap.lookup_eq_none]
  simp [Runtime.single, Finmap.mem_singleton, hr]

/-- Tables that agree away from `h`, one holding the count 1 for `h` and the other no
entry, are equal up to treating that entry as absent. -/
theorem equalModuloImplicit_of_one (h : RESULT) (t1 t2 : ResultMap) (one : CInt)
    (h1 : t1.lookup h = some one) (hone : one.val = 1) (h2 : t2.lookup h = none)
    (hrest : ∀ r, r ≠ h → t1.lookup r = t2.lookup r) : equalModuloImplicit h t1 t2 := by
  intro r
  unfold entryModuloImplicit
  by_cases hr : r = h
  · subst hr
    rw [h1, h2]
    simp [hone]
  · rw [hrest r hr]

/-- C17: for every handle `h`, every increment and any two states whose tables agree on
every other handle while one holds the count 1 for `h` and the other no entry, the call on
`h` fails in the one exactly when it fails in the other, makes the same driver calls in
both, and leaves tables that are again equal up to treating an entry of 1 for `h` as
absent. -/
theorem count_one_is_implicit (h : RESULT) (increment one : CInt) (s1 s2 : Runtime)
    (h1 : s1.allocatedResults.lookup h = some one) (hone : one.val = 1)
    (h2 : s2.allocatedResults.lookup h = none)
    (hrest : ∀ r, r ≠ h → s1.allocatedResults.lookup r = s2.allocatedResults.lookup r) :
    (__quantum__rt__result_update_reference_count h increment s1).isReturned
      = (__quantum__rt__result_update_reference_count h increment s2).isReturned ∧
    (∃ made : List DriverCall,
      (__quantum__rt__result_update_reference_count h increment s1).state.driverCalls
        = s1.driverCalls ++ made ∧
      (__quantum__rt__result_update_reference_count h increment s2).state.driverCalls
        = s2.driverCalls ++ made) ∧
    equalModuloImplicit h
      (__quantum__rt__result_update_reference_count h increment s1).state.allocatedResults
      (__quantum__rt__result_update_reference_count h increment s2).state.allocatedResults := by
  have hb := increment.lower
  have hrel := equalModuloImplicit_of_one h _ _ one h1 hone h2 hrest
  rcases lt_trichotomy increment.val 0 with hneg | h0 | hpos
  · have hw : (wrapInt (one.val + increment.val)).val = one.val + increment.val :=
      wrapInt_val _ (by unfold INT_MIN; omega) (by unfold INT_MAX; omega)
    rw [update_release_tracked h increment one s1 hneg h1,
      update_release_untracked h increment s2 hneg h2, hw]
    by_cases hm : increment.val = -1
    · rw [if_pos (by omega), if_pos (by omega), if_pos hm]
      refine ⟨rfl, ⟨[DriverCall.ReleaseResult h], rfl, rfl⟩, ?_⟩
      intro r
      unfold entryModuloImplicit
      simp only [Outcome.state]
      by_cases hr : r = h
      · subst hr
        rw [Finmap.lookup_erase, h2]
      · rw [Finmap.lookup_erase_ne hr, hrest r hr]
    · rw [if_neg (by omega), if_neg hm]
      exact ⟨rfl, ⟨[], by simp [Outcome.state], by simp [Outcome.state]⟩, hrel⟩
  · rw [update_zero h increment s1 h0, update_zero h increment s2 h0]
    exact ⟨rfl, ⟨[], by simp [Outcome.state], by simp [Outcome.state]⟩, hrel⟩
  · rw [update_share_tracked h increment one s1 hpos h1,
      update_share_untracked h increment s2 hpos h2, hone]
    refine ⟨rfl, ⟨[], by simp [Outcome.state], by simp [Outcome.state]⟩, ?_⟩
    intro r
    unfold entryModuloImplicit
    simp only [Outcome.state]
    by_cases hr : r = h
    · subst hr
      rw [Finmap.lookup_insert, Finmap.lookup_insert]
    · rw [Finmap.lookup_insert_of_ne _ hr, Finmap.lookup_insert_of_ne _ hr, hrest r hr]

theorem count_one_is_implicit_witness :
    (__quantum__rt__result_update_reference_count 7 ⟨-1, by decide⟩
        (Runtime.single 7 ⟨1, by decide⟩)).isReturned
      = (__quantum__rt__result_update_reference_count 7 ⟨-1, by decide⟩
        Runtime.initial).isReturned ∧
    (∃ made : List DriverCall,
      (__quantum__rt__result_update_reference_count 7 ⟨-1, by decide⟩
        (Runtime.single 7 ⟨1, by decide⟩)).state.driverCalls
        = (Runtime.single 7 ⟨1, by decide⟩).driverCalls ++ made ∧
      (__quantum__rt__result_update_reference_count 7 ⟨-1, by decide⟩
        Runtime.initial).state.driverCalls = Runtime.initial.driverCalls ++ made) ∧
    equalModuloImplicit 7
      (__quantum__rt__result_update_reference_count 7 ⟨-1, by decide⟩
        (Runtime.single 7 ⟨1, by decide⟩)).state.allocatedResults
      (__quantum__rt__result_update_reference_count 7 ⟨-1, by decide⟩
        Runtime.initial).state.allocatedResults :=
  count_one_is_implicit 7 ⟨-1, by decide⟩ ⟨1, by decide⟩ (Runtime.single 7 ⟨1, by decide⟩)
    Runtime.initial (by decide) (by decide) (by decide)
    (fun r hr => by
      rw [single_lookup_other 7 r ⟨1, by decide⟩ hr]
      simp [Runtime.initial, Finmap.lookup_empty])

/-! ## Functions that delegate to the driver -/

/-- C13: for every handle `h`, `__quantum__rt__result_equal(h, h)` returns true and makes
no driver call; for every two handles with different addresses it makes the one driver
call `AreEqualResults(h1, h2)` and returns exactly the answer of the driver. -/
theorem result_equal_shortcut (driver : IRuntimeDriver) (s : Runtime) :
    (∀ h, __quantum__rt__result_equal driver h h s = (true, s)) ∧
    (∀ h1 h2, h1 ≠ h2 →
      __quantum__rt__result_equal driver h1 h2 s
        = (driver.AreEqualResults s.driverCalls h1 h2,
            ⟨s.allocatedResults, s.driverCalls ++ [DriverCall.AreEqualResults h1 h2]⟩)) := by
  constructor
  · intro h
    simp [__quantum__rt__result_equal]
  · intro h1 h2 hne
    simp [__quantum__rt__result_equal, hne]

theorem result_equal_shortcut_witness :
    __quantum__rt__result_equal exampleDriver 7 9 Runtime.initial
        = (true, ⟨∅, [DriverCall.AreEqualResults 7 9]⟩) ∧
      __quantum__rt__result_equal exampleDriver 7 8 Runtime.initial
        = (false, ⟨∅, [DriverCall.AreEqualResults 7 8]⟩) ∧
      __quantum__rt__result_equal exampleDriver 7 7 Runtime.initial = (true, Runtime.initial) :=
  ⟨(result_equal_shortcut exampleDriver Runtime.initial).2 7 9 (by decide),
   (result_equal_shortcut exampleDriver Runtime.initial).2 7 8 (by decide),
   (result_equal_shortcut exampleDriver Runtime.initial).1 7⟩

/-- C14: for every result handle, `__quantum__rt__result_to_string` asks the driver for
the value once; it returns the string made from "Zero" when the value is `Result_Zero`,
the string made from "One" when it is `Result_One`, and fails its assertion, returning no
string, when it is `Result_Pending`; a string it returns never has another text than
"Zero" or "One". -/
theorem result_to_string_text (driver : IRuntimeDriver) (result : RESULT) (s : Runtime) :
    (driver.GetResultValue s.driverCalls result = ResultValue.Result_Zero →
      __quantum__rt__result_to_string driver result s
        = .returned (__quantum__rt__string_create "Zero")
            ⟨s.allocatedResults, s.driverCalls ++ [DriverCall.GetResultValue result]⟩) ∧
    (driver.GetResultValue s.driverCalls result = ResultValue.Result_One →
      __quantum__rt__result_to_string driver result s
        = .returned (__quantum__rt__string_create "One")
            ⟨s.allocatedResults, s.driverCalls ++ [DriverCall.GetResultValue result]⟩) ∧
    (driver.GetResultValue s.driverCalls result = ResultValue.Result_Pending →
      __quantum__rt__result_to_string driver result s
        = .assertFailed
            ⟨s.allocatedResults, s.driverCalls ++ [DriverCall.GetResultValue result]⟩) ∧
    (∀ str s', __quantum__rt__result_to_string driver result s = .returned str s' →
      str.text = "Zero" ∨ str.text = "One") := by
  refine ⟨?_, ?_, ?_, ?_⟩
  · intro hv
    simp [__quantum__rt__result_to_string, hv]
  · intro hv
    simp [__quantum__rt__result_to_string, hv]
  · intro hv
    simp [__quantum__rt__result_to_string, hv]
  · intro str s' hret
    cases hv : driver.GetResultValue s.driverCalls result <;>
      simp [__quantum__rt__result_to_string, hv, __quantum__rt__string_create] at hret
    · left; rw [← hret.1]
    · right; rw [← hret.1]

theorem result_to_string_text_witness :
    __quantum__rt__result_to_string exampleDriver 0 Runtime.initial
        = .returned (__quantum__rt__string_create "Zero") ⟨∅, [DriverCall.GetResultValue 0]⟩ ∧
      __quantum__rt__result_to_string exampleDriver 1 Runtime.initial
        = .returned (__quantum__rt__string_create "One") ⟨∅, [DriverCall.GetResultValue 1]⟩ ∧
      __quantum__rt__result_to_string exampleDriver 2 Runtime.initial
        = .assertFailed ⟨∅, [DriverCall.GetResultValue 2]⟩ :=
  ⟨(result_to_string_text exampleDriver 0 Runtime.initial).1 (by decide),
   (result_to_string_text exampleDriver 1 Runtime.initial).2.1 (by decide),
   (result_to_string_text exampleDriver 2 Runtime.initial).2.2.1 (by decide)⟩

/-- C15: in every state and for every driver, `__quantum__rt__qubit_borrow()` returns the
same qubit and leaves the same state as `__quantum__rt__qubit_allocate()`, namely the
answer of the driver to the one call `AllocateQubit()`; for every qubit,
`__quantum__rt__qubit_return` leaves the same state as `__quantum__rt__qubit_release`,
with the one driver call `ReleaseQubit(qubit)` added; none of them changes the table. -/
theorem borrow_is_allocate (driver : IRuntimeDriver) (s : Runtime) (qubit : QUBIT) :
    __quantum__rt__qubit_borrow driver s = __quantum__rt__qubit_allocate driver s ∧
    __quantum__rt__qubit_borrow driver s
      = (driver.AllocateQubit s.driverCalls,
          ⟨s.allocatedResults, s.driverCalls ++ [DriverCall.AllocateQubit]⟩) ∧
    __quantum__rt__qubit_return qubit s = __quantum__rt__qubit_release qubit s ∧
    __quantum__rt__qubit_return qubit s
      = ⟨s.allocatedResults, s.driverCalls ++ [DriverCall.ReleaseQubit qubit]⟩ ∧
    (__quantum__rt__qubit_borrow driver s).2.allocatedResults = s.allocatedResults ∧
    (__quantum__rt__qubit_allocate driver s).2.allocatedResults = s.allocatedResults ∧
    (__quantum__rt__qubit_return qubit s).allocatedResults = s.allocatedResults ∧
    (__quantum__rt__qubit_release qubit s).allocatedResults = s.allocatedResults :=
  ⟨rfl, rfl, rfl, rfl, rfl, rfl, rfl, rfl⟩

end QirRuntime
